import Mathlib

/-!
Shallow embedding of `Nav_Calc.py` (class `NAVCalculator`), a daily fund-NAV
pipeline built on pandas.  Dates are modelled as day numbers (`Int`), all
numeric cell values as rationals (`ℚ`), and a pandas `NaN`/`NaT` cell as
`none : Option _`.  Pandas-specific behaviour is modelled explicitly:

* `load_data` takes `min`/`max` over the four per-frame minima/maxima with
  Python's builtin `min`, whose comparisons against `NaT` always return
  `False` (so an empty *first* frame poisons the result, later empty frames
  are skipped);
* `reindex` onto the canonical range keeps exactly the canonical dates;
  `fillna(method="ffill")` carries the last earlier non-missing cell forward;
* `DataFrame.pivot` raises when a `(date, ticker)` key is duplicated, and
  `Series.reindex` raises when the source index has duplicate labels;
* float division `net_assets / units` yields a non-finite value (`inf`/`NaN`)
  exactly when the denominator is zero, and a finite quotient otherwise.
-/

namespace NavCalc

/-- A row of `holdings.csv`: columns `date, ticker, quantity`. -/
structure HoldingRecord where
  date : Int
  ticker : String
  quantity : ℚ
deriving DecidableEq, Repr

/-- A row of `prices.csv`: columns `date, ticker, close`. -/
structure PriceRecord where
  date : Int
  ticker : String
  close : ℚ
deriving DecidableEq, Repr

/-- A row of `cashflows.csv`: columns `date, amount, type`. -/
structure CashFlowRecord where
  date : Int
  amount : ℚ
  type : String
deriving DecidableEq, Repr

/-- A row of `units_outstanding.csv`: columns `date, units_outstanding`. -/
structure UnitsRecord where
  date : Int
  units_outstanding : ℚ
deriving DecidableEq, Repr

/-- The four loaded CSV frames held by a `NAVCalculator` instance. -/
structure NavInput where
  holdings : List HoldingRecord
  prices : List PriceRecord
  cashflows : List CashFlowRecord
  units : List UnitsRecord
deriving DecidableEq, Repr

/-- The ways the pipeline can raise: `pd.date_range` on a `NaT` endpoint,
`DataFrame.pivot` on a duplicated `(date, ticker)` key, `Series.reindex` on a
duplicated units date, and the explicit
`ValueError("Units outstanding missing for some dates")`. -/
inductive NavError where
  | emptyRange
  | duplicatePriceKey
  | duplicateUnitsDate
  | missingUnits
deriving DecidableEq, Repr

/-- `nav_per_unit` cells live in floats: a zero denominator produces
`inf`/`-inf`/`NaN`; we record only finite-vs-non-finite. -/
inductive NavValue where
  | fin (q : ℚ)
  | nonfin
deriving DecidableEq, Repr

/-- Float division `net / units`: non-finite exactly on a zero denominator. -/
def navDiv (net u : ℚ) : NavValue :=
  if u = 0 then NavValue.nonfin else NavValue.fin (net / u)

/-- Pandas `<` on timestamps where `none` is `NaT`: any comparison involving
`NaT` is `False`. -/
def tsLt : Option Int → Option Int → Bool
  | some a, some b => decide (a < b)
  | _, _ => false

/-- Pandas `>` on timestamps where `none` is `NaT`. -/
def tsGt : Option Int → Option Int → Bool
  | some a, some b => decide (b < a)
  | _, _ => false

/-- Python's builtin `min`/`max` over a list, parameterised by the strict
comparison: the accumulator starts at the head and is replaced only when the
comparison returns `true` (so a `NaT` head is never displaced). -/
def pyExtreme (cmp : Option Int → Option Int → Bool) : List (Option Int) → Option Int
  | [] => none
  | h :: t => t.foldl (fun acc x => if cmp x acc then x else acc) h

/-- `df["date"].min()` on one frame: `NaT` (`none`) when the frame is empty. -/
def seriesMin (dates : List Int) : Option Int := dates.min?

/-- `df["date"].max()` on one frame. -/
def seriesMax (dates : List Int) : Option Int := dates.max?

/-- `pd.date_range(lo, hi, freq="D")` as a list of consecutive day numbers. -/
def dateRange (lo hi : Int) : List Int :=
  (List.range (hi + 1 - lo).toNat).map (fun (i : Nat) => lo + (i : Int))

/-- `load_data`: the canonical date range from the global minimum to the
global maximum over the four frames, scanned in source order
`(holdings, prices, cashflows, units)`; `pd.date_range` raises when either
endpoint is `NaT`. -/
def load_data (inp : NavInput) : Except NavError (List Int) :=
  let mins := [seriesMin (inp.holdings.map (fun r => r.date)),
               seriesMin (inp.prices.map (fun r => r.date)),
               seriesMin (inp.cashflows.map (fun r => r.date)),
               seriesMin (inp.units.map (fun r => r.date))]
  let maxs := [seriesMax (inp.holdings.map (fun r => r.date)),
               seriesMax (inp.prices.map (fun r => r.date)),
               seriesMax (inp.cashflows.map (fun r => r.date)),
               seriesMax (inp.units.map (fun r => r.date))]
  match pyExtreme tsLt mins, pyExtreme tsGt maxs with
  | some lo, some hi => Except.ok (dateRange lo hi)
  | _, _ => Except.error NavError.emptyRange

/-- `Series.fillna(method="ffill")` down one reindexed column: each cell keeps
its own value when present, otherwise the most recent earlier value (`last` is
the fill state before the first row, `none` after a fresh reindex). -/
def ffillCol (f : Int → Option ℚ) : List Int → Option ℚ → List (Int × Option ℚ)
  | [], _ => []
  | d :: ds, last =>
    let v := match f d with
      | some x => some x
      | none => last
    (d, v) :: ffillCol f ds v

/-- A pivoted date × ticker frame: its column labels and, for every label, the
column as a date-indexed series (already reindexed onto the canonical range). -/
structure Frame (β : Type) where
  cols : List String
  col : String → List (Int × β)

/-- `groupby(["date","ticker"])["quantity"].sum()` at one aggregated key. -/
def holdingsSum (hs : List HoldingRecord) (d : Int) (t : String) : ℚ :=
  ((hs.filter (fun r => r.date == d && r.ticker == t)).map (fun r => r.quantity)).sum

/-- A cell of the holdings pivot before reindexing: present exactly when some
holdings record carries this `(date, ticker)` key. -/
def holdingsPivot (hs : List HoldingRecord) (d : Int) (t : String) : Option ℚ :=
  if hs.any (fun r => r.date == d && r.ticker == t) then some (holdingsSum hs d t)
  else none

/-- `prepare_holdings`: group and sum by `(date, ticker)`, pivot, reindex onto
the canonical range, forward-fill, then `fillna(0)`. -/
def prepare_holdings (hs : List HoldingRecord) (allD : List Int) : Frame ℚ :=
  { cols := (hs.map (fun r => r.ticker)).dedup,
    col := fun t =>
      (ffillCol (fun d => holdingsPivot hs d t) allD none).map
        (fun p => (p.1, p.2.getD 0)) }

/-- The list of `(date, ticker)` keys of the raw prices frame. -/
def priceKeys (ps : List PriceRecord) : List (Int × String) :=
  ps.map (fun r => (r.date, r.ticker))

/-- A cell of the prices pivot before reindexing (keys are unique when the
pivot succeeds, so the first matching record is the record). -/
def pricePivot (ps : List PriceRecord) (d : Int) (t : String) : Option ℚ :=
  (ps.find? (fun r => r.date == d && r.ticker == t)).map (fun r => r.close)

/-- The pivoted, reindexed and forward-filled price matrix (the value
`prepare_prices` returns when the pivot does not raise). -/
def price_frame (ps : List PriceRecord) (allD : List Int) : Frame (Option ℚ) :=
  { cols := (ps.map (fun r => r.ticker)).dedup,
    col := fun t => ffillCol (fun d => pricePivot ps d t) allD none }

/-- `prepare_prices`: pivot (raising on a duplicated `(date, ticker)` key),
reindex onto the canonical range, forward-fill; cells with no earlier
observation stay missing. -/
def prepare_prices (ps : List PriceRecord) (allD : List Int) :
    Except NavError (Frame (Option ℚ)) :=
  if (priceKeys ps).Nodup then Except.ok (price_frame ps allD)
  else Except.error NavError.duplicatePriceKey

/-- `sorted(set(holdings.columns) | set(prices.columns))`. -/
def allTickers (hcols pcols : List String) : List String :=
  ((hcols ++ pcols).dedup).mergeSort (fun a b => decide (a ≤ b))

/-- `calculate_assets`: align both pivots on the union of tickers (positions
default to `0`, prices stay missing), multiply elementwise (a missing price
poisons the product), `fillna(0)`, and sum across tickers per date. -/
def calculate_assets (allD : List Int) (hf : Frame ℚ) (pf : Frame (Option ℚ)) :
    List (Int × ℚ) :=
  let tickers := allTickers hf.cols pf.cols
  allD.map (fun d =>
    (d, (tickers.map (fun t =>
          (Option.map (fun px => ((hf.col t).lookup d).getD 0 * px)
            (((pf.col t).lookup d).getD none)).getD 0)).sum))

/-- The label used for the liabilities filter (`"fee"`). -/
def feeTag : String := "fee"

/-- The label used for the dividends filter (`"dividend"`). -/
def divTag : String := "dividend"

/-- One step of `str.lower()` restricted to the characters we model. -/
def lowerChars (s : String) : List Char := s.data.map Char.toLower

/-- `pat` occurs as a contiguous substring of `l`. -/
def subOccurs (pat : List Char) : List Char → Bool
  | [] => pat.isEmpty
  | c :: rest => pat.isPrefixOf (c :: rest) || subOccurs pat rest

/-- `row["type"].lower()` contains `needle` (`str.contains`, case-insensitive
via the preceding `str.lower()`). -/
def typeHas (needle : String) (r : CashFlowRecord) : Bool :=
  subOccurs needle.data (lowerChars r.type)

/-- `groupby("date")["amount"].sum()` at one date: present exactly when some
record is dated there. -/
def flowsOn (cfs : List CashFlowRecord) (d : Int) : Option ℚ :=
  if cfs.any (fun r => r.date == d) then
    some (((cfs.filter (fun r => r.date == d)).map (fun r => r.amount)).sum)
  else none

/-- The grouped daily sum after `reindex(all_dates).fillna(0)`. -/
def dailyFlow (cfs : List CashFlowRecord) (d : Int) : ℚ :=
  (flowsOn cfs d).getD 0

/-- `Series.cumsum()` along a date-indexed series. -/
def cumsumSeries : List (Int × ℚ) → ℚ → List (Int × ℚ)
  | [], _ => []
  | (d, x) :: rest, acc => (d, acc + x) :: cumsumSeries rest (acc + x)

/-- `calculate_cash_and_liabilities`: the running cash balance, the
non-negative daily fee liabilities `(-fees).clip(lower=0)`, and the daily
dividend income, all indexed over the canonical range. -/
def calculate_cash_and_liabilities (cfs : List CashFlowRecord) (allD : List Int) :
    List (Int × ℚ) × List (Int × ℚ) × List (Int × ℚ) :=
  (cumsumSeries (allD.map (fun d => (d, dailyFlow cfs d))) 0,
   allD.map (fun d => (d, max (-(dailyFlow (cfs.filter (typeHas feeTag)) d)) 0)),
   allD.map (fun d => (d, dailyFlow (cfs.filter (typeHas divTag)) d)))

/-- The units series cell at one raw date (`set_index("date")`; the index is
unique whenever the reindex below does not raise). -/
def unitsPivot (us : List UnitsRecord) (d : Int) : Option ℚ :=
  (us.find? (fun r => r.date == d)).map (fun r => r.units_outstanding)

/-- `prepare_units`: index by date, reindex onto the canonical range (raising
on duplicate index labels), forward-fill, and raise when any cell is still
missing. -/
def prepare_units (us : List UnitsRecord) (allD : List Int) :
    Except NavError (List (Int × ℚ)) :=
  if (us.map (fun r => r.date)).Nodup then
    let filled := ffillCol (fun d => unitsPivot us d) allD none
    if filled.all (fun p => p.2.isSome) then
      Except.ok (filled.map (fun p => (p.1, p.2.getD 0)))
    else Except.error NavError.missingUnits
  else Except.error NavError.duplicateUnitsDate

/-- One output row of `daily_nav.csv`. -/
structure NavRow where
  date : Int
  assets_from_securities : ℚ
  cash_balance : ℚ
  cumulative_dividends : ℚ
  liabilities : ℚ
  net_assets : ℚ
  units_outstanding : ℚ
  nav_per_unit : NavValue
deriving DecidableEq, Repr

/-- `compute_nav` given the canonical range already derived by `load_data`:
run the stages in source order and assemble one row per canonical date. -/
def compute_nav (inp : NavInput) (allD : List Int) : Except NavError (List NavRow) :=
  let hf := prepare_holdings inp.holdings allD
  match prepare_prices inp.prices allD with
  | Except.error e => Except.error e
  | Except.ok pf =>
    let assets := calculate_assets allD hf pf
    let ccl := calculate_cash_and_liabilities inp.cashflows allD
    let cash := ccl.1
    let liab := ccl.2.1
    let divd := ccl.2.2
    match prepare_units inp.units allD with
    | Except.error e => Except.error e
    | Except.ok us =>
      let cumdiv := cumsumSeries divd 0
      Except.ok (allD.map (fun d =>
        let a := (assets.lookup d).getD 0
        let c := (cash.lookup d).getD 0
        let dv := (cumdiv.lookup d).getD 0
        let l := (liab.lookup d).getD 0
        let u := (us.lookup d).getD 0
        let tot := a + c + dv
        let net := tot - l
        { date := d, assets_from_securities := a, cash_balance := c,
          cumulative_dividends := dv, liabilities := l, net_assets := net,
          units_outstanding := u, nav_per_unit := navDiv net u }))

/-- The whole `__main__` computation: `load_data` then `compute_nav`. -/
def runPipeline (inp : NavInput) : Except NavError (List NavRow) :=
  match load_data inp with
  | Except.error e => Except.error e
  | Except.ok allD => compute_nav inp allD

instance {ε α : Type} [DecidableEq ε] [DecidableEq α] : DecidableEq (Except ε α) :=
  fun a b =>
    match a, b with
    | Except.error x, Except.error y =>
      match decEq x y with
      | isTrue h => isTrue (by rw [h])
      | isFalse h => isFalse (fun hh => h (Except.error.inj hh))
    | Except.ok x, Except.ok y =>
      match decEq x y with
      | isTrue h => isTrue (by rw [h])
      | isFalse h => isFalse (fun hh => h (Except.ok.inj hh))
    | Except.error _, Except.ok _ => isFalse (fun hh => Except.noConfusion hh)
    | Except.ok _, Except.error _ => isFalse (fun hh => Except.noConfusion hh)

/-- The most recent date in `ds` that is on or before `d` and carries an
observation of `f` — the source a forward-fill cell draws from. -/
def lastObs (f : Int → Option ℚ) (ds : List Int) (d : Int) : Option Int :=
  (ds.filter (fun x => decide (x ≤ d) && (f x).isSome)).max?

/-- The daily cash-balance cell at date `d`, read off the first series
returned by `calculate_cash_and_liabilities`. -/
def cashLookup (cfs : List CashFlowRecord) (allD : List Int) (d : Int) : ℚ :=
  (((calculate_cash_and_liabilities cfs allD).1).lookup d).getD 0

/-- The daily liabilities cell at date `d`, read off the second series
returned by `calculate_cash_and_liabilities`. -/
def liabLookup (cfs : List CashFlowRecord) (allD : List Int) (d : Int) : ℚ :=
  (((calculate_cash_and_liabilities cfs allD).2.1).lookup d).getD 0

/-- The spec's walkthrough scenario: one holding of 100 `AAA` on day 0,
prices 10 and 12 on days 0 and 1, one subscription of 1000 on day 0, and 100
units outstanding from day 0 (2024-01-01 is day 0, 2024-01-02 is day 1). -/
def ex1 : NavInput :=
  { holdings := [{ date := 0, ticker := "AAA", quantity := 100 }],
    prices := [{ date := 0, ticker := "AAA", close := 10 },
               { date := 1, ticker := "AAA", close := 12 }],
    cashflows := [{ date := 0, amount := 1000, type := "subscription" }],
    units := [{ date := 0, units_outstanding := 100 }] }

/-- The scenario of `ex1` with a negative units-outstanding balance. -/
def ex7 : NavInput :=
  { holdings := [{ date := 0, ticker := "AAA", quantity := 100 }],
    prices := [{ date := 0, ticker := "AAA", close := 10 },
               { date := 1, ticker := "AAA", close := 12 }],
    cashflows := [{ date := 0, amount := 1000, type := "subscription" }],
    units := [{ date := 0, units_outstanding := -100 }] }

/-- The scenario of `ex1` with zero units outstanding. -/
def exZ : NavInput :=
  { holdings := [{ date := 0, ticker := "AAA", quantity := 100 }],
    prices := [{ date := 0, ticker := "AAA", close := 10 },
               { date := 1, ticker := "AAA", close := 12 }],
    cashflows := [{ date := 0, amount := 1000, type := "subscription" }],
    units := [{ date := 0, units_outstanding := 0 }] }

/-- An input whose units ledger carries the same date twice (with equal
values) while every other frame is well-formed. -/
def ex5 : NavInput :=
  { holdings := [{ date := 0, ticker := "AAA", quantity := 100 }],
    prices := [{ date := 0, ticker := "AAA", close := 10 }],
    cashflows := [{ date := 0, amount := 1000, type := "subscription" }],
    units := [{ date := 0, units_outstanding := 100 },
              { date := 0, units_outstanding := 100 }] }

/-- An input whose prices frame has zero records while the other three frames
are populated. -/
def ex9 : NavInput :=
  { holdings := [{ date := 0, ticker := "AAA", quantity := 100 }],
    prices := [],
    cashflows := [{ date := 0, amount := 1000, type := "subscription" }],
    units := [{ date := 0, units_outstanding := 100 }] }

/-- An input whose holdings frame has zero records. -/
def exH : NavInput :=
  { holdings := [],
    prices := [{ date := 0, ticker := "AAA", close := 10 }],
    cashflows := [{ date := 0, amount := 1000, type := "subscription" }],
    units := [{ date := 0, units_outstanding := 100 }] }

/-- An input whose prices frame carries the `(date, ticker)` key `(0, AAA)`
twice. -/
def ex10 : NavInput :=
  { holdings := [{ date := 0, ticker := "AAA", quantity := 100 }],
    prices := [{ date := 0, ticker := "AAA", close := 10 },
               { date := 0, ticker := "AAA", close := 11 }],
    cashflows := [{ date := 0, amount := 1000, type := "subscription" }],
    units := [{ date := 0, units_outstanding := 100 }] }

/-- Cash flows with a negative record that is netted out by a larger deposit
on the same day. -/
def cfs8 : List CashFlowRecord :=
  [{ date := 0, amount := 100, type := "deposit" },
   { date := 0, amount := -50, type := "withdrawal" },
   { date := 1, amount := 10, type := "deposit" }]

/-- A single fee cash flow of -50, for exercising the liabilities rule. -/
def cfs6 : List CashFlowRecord :=
  [{ date := 0, amount := -50, type := "management fee" }]

/-- A units ledger whose history starts after day 0. -/
def usLate : List UnitsRecord := [{ date := 5, units_outstanding := 100 }]

instance : Std.Antisymm (fun (a b : Int) => a ≤ b) := ⟨fun h h' => le_antisymm h h'⟩

/-! ### Generic list lemmas -/

theorem int_max?_eq_some_iff (l : List Int) (m : Int) :
    l.max? = some m ↔ m ∈ l ∧ ∀ x ∈ l, x ≤ m :=
  List.max?_eq_some_iff (fun a => le_refl a) max_choice (fun _ _ _ => max_le_iff)

theorem int_min?_eq_some_iff (l : List Int) (m : Int) :
    l.min? = some m ↔ m ∈ l ∧ ∀ x ∈ l, m ≤ x :=
  List.min?_eq_some_iff (fun a => le_refl a) min_choice (fun _ _ _ => le_min_iff)

theorem int_max?_congr {l₁ l₂ : List Int} (h : ∀ x, x ∈ l₁ ↔ x ∈ l₂) :
    l₁.max? = l₂.max? := by
  cases h₂ : l₂.max? with
  | some m =>
    rcases (int_max?_eq_some_iff l₂ m).mp h₂ with ⟨hm, hub⟩
    exact (int_max?_eq_some_iff l₁ m).mpr ⟨(h m).mpr hm, fun x hx => hub x ((h x).mp hx)⟩
  | none =>
    rw [List.max?_eq_none_iff] at h₂ ⊢
    subst h₂
    cases hl : l₁ with
    | nil => rfl
    | cons a t => exact absurd ((h a).mp (hl ▸ List.mem_cons_self a t)) (by simp)

theorem lookup_map_snd {α β : Type} (g : α → β) :
    ∀ (l : List (Int × α)) (d : Int),
      List.lookup d (l.map (fun p => (p.1, g p.2))) = (List.lookup d l).map g := by
  intro l
  induction l with
  | nil => intro d; rfl
  | cons p t ih =>
    intro d
    rcases p with ⟨k, v⟩
    by_cases hdk : d = k
    · subst hdk; simp [List.lookup_cons]
    · have hb : (d == k) = false := beq_false_of_ne hdk
      simp [List.lookup_cons, hb, ih]

theorem lookup_graph {α : Type} (g : Int → α) :
    ∀ (l : List Int) (d : Int), d ∈ l →
      List.lookup d (l.map (fun x => (x, g x))) = some (g d) := by
  intro l
  induction l with
  | nil => intro d hd; cases hd
  | cons a t ih =>
    intro d hd
    by_cases hda : d = a
    · subst hda; simp [List.lookup_cons]
    · have hb : (d == a) = false := beq_false_of_ne hda
      have hdt : d ∈ t := by
        rcases List.mem_cons.mp hd with h | h
        · exact absurd h hda
        · exact h
      simp [List.lookup_cons, hb, ih d hdt]

theorem sum_filter_le_sum {f : Int → ℚ} (p : Int → Bool) :
    ∀ (l : List Int), (∀ x ∈ l, 0 ≤ f x) →
      ((l.filter p).map f).sum ≤ (l.map f).sum := by
  intro l
  induction l with
  | nil => intro _; simp
  | cons a t ih =>
    intro hpos
    have ht := ih (fun x hx => hpos x (List.mem_cons_of_mem a hx))
    by_cases hpa : p a
    · simpa [List.filter_cons, hpa] using add_le_add_left ht (f a)
    · have hb : p a = false := by simpa using hpa
      simp only [List.filter_cons, hb, Bool.false_eq_true, if_false, List.map_cons,
        List.sum_cons]
      calc ((t.filter p).map f).sum ≤ (t.map f).sum := ht
        _ ≤ f a + (t.map f).sum := le_add_of_nonneg_left (hpos a (List.mem_cons_self a t))

/-! ### The canonical date range -/

theorem mem_dateRange {lo hi d : Int} : d ∈ dateRange lo hi ↔ lo ≤ d ∧ d ≤ hi := by
  unfold dateRange
  constructor
  · intro h
    rcases List.mem_map.mp h with ⟨i, hi', rfl⟩
    have := List.mem_range.mp hi'
    omega
  · intro ⟨h1, h2⟩
    refine List.mem_map.mpr ⟨(d - lo).toNat, List.mem_range.mpr (by omega), by omega⟩

theorem sorted_dateRange (lo hi : Int) : (dateRange lo hi).Sorted (· < ·) := by
  unfold dateRange
  exact List.Pairwise.map (fun (i : Nat) => lo + (i : Int))
    (fun a b hab => by show lo + (a : Int) < lo + (b : Int); omega)
    (List.pairwise_lt_range _)

theorem nodup_dateRange (lo hi : Int) : (dateRange lo hi).Nodup :=
  (sorted_dateRange lo hi).nodup

theorem dateRange_snoc {lo d : Int} (h : lo ≤ d) :
    dateRange lo d = dateRange lo (d - 1) ++ [d] := by
  unfold dateRange
  have h1 : (d + 1 - lo).toNat = (d - 1 + 1 - lo).toNat + 1 := by omega
  rw [h1, List.range_succ, List.map_append]
  simp only [List.map_cons, List.map_nil]
  congr 2
  omega

theorem dateRange_split {lo d hi : Int} (h1 : lo ≤ d + 1) (h2 : d ≤ hi) :
    dateRange lo hi = dateRange lo d ++ dateRange (d + 1) hi := by
  unfold dateRange
  have hn : (hi + 1 - lo).toNat = (d + 1 - lo).toNat + (hi + 1 - (d + 1)).toNat := by omega
  rw [hn, List.range_add, List.map_append, List.map_map]
  congr 1
  refine List.map_congr_left ?_
  intro i _
  simp only [Function.comp_apply]
  omega

theorem dateRange_filter_le {lo d hi : Int} (h2 : d ≤ hi) :
    (dateRange lo hi).filter (fun x => decide (x ≤ d)) = dateRange lo d := by
  haveI : IsAntisymm Int (· < ·) := ⟨fun _ _ h h' => absurd h' (lt_asymm h)⟩
  have hperm : ((dateRange lo hi).filter (fun x => decide (x ≤ d))).Perm (dateRange lo d) := by
    refine (List.perm_ext_iff_of_nodup ((nodup_dateRange lo hi).filter _)
      (nodup_dateRange lo d)).mpr ?_
    intro x
    simp only [List.mem_filter, mem_dateRange, decide_eq_true_eq]
    omega
  exact List.eq_of_perm_of_sorted hperm
    (List.Pairwise.filter _ (sorted_dateRange lo hi)) (sorted_dateRange lo d)

/-! ### Python `min`/`max` with `NaT` semantics -/

theorem pyFold_none (cmp : Option Int → Option Int → Bool)
    (hcmp : ∀ x, cmp x none = false) :
    ∀ (t : List (Option Int)),
      t.foldl (fun acc x => if cmp x acc then x else acc) none = none := by
  intro t
  induction t with
  | nil => rfl
  | cons x t ih => simpa [hcmp x] using ih

theorem pyExtreme_none (cmp : Option Int → Option Int → Bool)
    (hcmp : ∀ x, cmp x none = false) (t : List (Option Int)) :
    pyExtreme cmp (none :: t) = none := by
  simpa [pyExtreme] using pyFold_none cmp hcmp t

theorem pyMin_foldl_le :
    ∀ (t : List (Option Int)) (acc : Option Int) (v : Int),
      t.foldl (fun acc x => if tsLt x acc then x else acc) acc = some v →
        (∀ a, acc = some a → v ≤ a) ∧ (∀ a, some a ∈ t → v ≤ a) := by
  intro t
  induction t with
  | nil =>
    intro acc v h
    refine ⟨fun a ha => ?_, fun a ha => absurd ha (List.not_mem_nil _)⟩
    rw [List.foldl_nil] at h
    rw [h] at ha
    exact le_of_eq (Option.some.inj ha)
  | cons x t ih =>
    intro acc v h
    rw [List.foldl_cons] at h
    rcases ih _ v h with ⟨H1, H2⟩
    constructor
    · intro a ha
      subst ha
      cases x with
      | none => exact H1 a (by simp [tsLt])
      | some b =>
        by_cases hba : b < a
        · have : tsLt (some b) (some a) = true := by simp [tsLt, hba]
          exact le_trans (H1 b (by simp [this])) (le_of_lt hba)
        · have : tsLt (some b) (some a) = false := by simp [tsLt, hba]
          exact H1 a (by simp [this])
    · intro a ha
      rcases List.mem_cons.mp ha with hx | hx
      · subst hx
        cases acc with
        | none =>
          exfalso
          have : tsLt (some a) none = false := by simp [tsLt]
          rw [this] at h
          simp only [if_false, Bool.false_eq_true] at h
          rw [pyFold_none tsLt (fun x => by cases x <;> simp [tsLt]) t] at h
          exact Option.noConfusion h
        | some c =>
          by_cases hac : a < c
          · have : tsLt (some a) (some c) = true := by simp [tsLt, hac]
            exact H1 a (by simp [this])
          · have hle : c ≤ a := le_of_not_lt hac
            have : tsLt (some a) (some c) = false := by simp [tsLt, hac]
            exact le_trans (H1 c (by simp [this])) hle
      · exact H2 a hx

theorem pyMax_foldl_ge :
    ∀ (t : List (Option Int)) (acc : Option Int) (v : Int),
      t.foldl (fun acc x => if tsGt x acc then x else acc) acc = some v →
        (∀ a, acc = some a → a ≤ v) ∧ (∀ a, some a ∈ t → a ≤ v) := by
  intro t
  induction t with
  | nil =>
    intro acc v h
    refine ⟨fun a ha => ?_, fun a ha => absurd ha (List.not_mem_nil _)⟩
    rw [List.foldl_nil] at h
    rw [h] at ha
    exact le_of_eq (Option.some.inj ha).symm
  | cons x t ih =>
    intro acc v h
    rw [List.foldl_cons] at h
    rcases ih _ v h with ⟨H1, H2⟩
    constructor
    · intro a ha
      subst ha
      cases x with
      | none => exact H1 a (by simp [tsGt])
      | some b =>
        by_cases hba : a < b
        · have : tsGt (some b) (some a) = true := by simp [tsGt, hba]
          exact le_trans (le_of_lt hba) (H1 b (by simp [this]))
        · have : tsGt (some b) (some a) = false := by simp [tsGt, hba]
          exact H1 a (by simp [this])
    · intro a ha
      rcases List.mem_cons.mp ha with hx | hx
      · subst hx
        cases acc with
        | none =>
          exfalso
          have : tsGt (some a) none = false := by simp [tsGt]
          rw [this] at h
          simp only [if_false, Bool.false_eq_true] at h
          rw [pyFold_none tsGt (fun x => by cases x <;> simp [tsGt]) t] at h
          exact Option.noConfusion h
        | some c =>
          by_cases hac : c < a
          · have : tsGt (some a) (some c) = true := by simp [tsGt, hac]
            exact H1 a (by simp [this])
          · have hle : a ≤ c := le_of_not_lt hac
            have : tsGt (some a) (some c) = false := by simp [tsGt, hac]
            exact le_trans hle (H1 c (by simp [this]))
      · exact H2 a hx

theorem pyMin_le {xs : List (Option Int)} {v : Int}
    (h : pyExtreme tsLt xs = some v) : ∀ a, some a ∈ xs → v ≤ a := by
  cases xs with
  | nil => exact absurd h (by simp [pyExtreme])
  | cons x t =>
    intro a ha
    rcases pyMin_foldl_le t x v h with ⟨H1, H2⟩
    rcases List.mem_cons.mp ha with hx | hx
    · exact H1 a hx.symm
    · exact H2 a hx

theorem pyMax_ge {xs : List (Option Int)} {v : Int}
    (h : pyExtreme tsGt xs = some v) : ∀ a, some a ∈ xs → a ≤ v := by
  cases xs with
  | nil => exact absurd h (by simp [pyExtreme])
  | cons x t =>
    intro a ha
    rcases pyMax_foldl_ge t x v h with ⟨H1, H2⟩
    rcases List.mem_cons.mp ha with hx | hx
    · exact H1 a hx.symm
    · exact H2 a hx

/-! ### Bounds derived from `load_data` -/

theorem load_data_shape {inp : NavInput} {allD : List Int}
    (h : load_data inp = Except.ok allD) :
    ∃ lo hi, allD = dateRange lo hi ∧
      pyExtreme tsLt [seriesMin (inp.holdings.map (fun r => r.date)),
                      seriesMin (inp.prices.map (fun r => r.date)),
                      seriesMin (inp.cashflows.map (fun r => r.date)),
                      seriesMin (inp.units.map (fun r => r.date))] = some lo ∧
      pyExtreme tsGt [seriesMax (inp.holdings.map (fun r => r.date)),
                      seriesMax (inp.prices.map (fun r => r.date)),
                      seriesMax (inp.cashflows.map (fun r => r.date)),
                      seriesMax (inp.units.map (fun r => r.date))] = some hi := by
  unfold load_data at h
  simp only [] at h
  split at h
  · rename_i lo hi hlo hhi
    simp only [Except.ok.injEq] at h
    exact ⟨lo, hi, h.symm, hlo, hhi⟩
  · exact absurd h (by simp)

/-- Every date of a nonempty record list lies between the endpoints extracted
by `load_data`: in particular every raw date lies on the canonical range. -/
theorem dates_mem_of_load {dates : List Int} {mins maxs : List (Option Int)}
    {lo hi : Int}
    (hminmem : seriesMin dates ∈ mins) (hmaxmem : seriesMax dates ∈ maxs)
    (hlo : pyExtreme tsLt mins = some lo) (hhi : pyExtreme tsGt maxs = some hi) :
    ∀ x ∈ dates, lo ≤ x ∧ x ≤ hi := by
  intro x hx
  cases hd : dates with
  | nil => subst hd; cases hx
  | cons a t =>
    subst hd
    have hmin : seriesMin (a :: t) = some (t.foldl min a) := rfl
    have hmax : seriesMax (a :: t) = some (t.foldl max a) := rfl
    have h1 : lo ≤ t.foldl min a := by
      refine pyMin_le hlo _ ?_
      rw [← hmin]; exact hminmem
    have h2 : t.foldl max a ≤ hi := by
      refine pyMax_ge hhi _ ?_
      rw [← hmax]; exact hmaxmem
    have hminx : t.foldl min a ≤ x := by
      rcases (int_min?_eq_some_iff (a :: t) (t.foldl min a)).mp hmin with ⟨_, hub⟩
      exact hub x hx
    have hmaxx : x ≤ t.foldl max a := by
      rcases (int_max?_eq_some_iff (a :: t) (t.foldl max a)).mp hmax with ⟨_, hub⟩
      exact hub x hx
    exact ⟨le_trans h1 hminx, le_trans hmaxx h2⟩

/-! ### Closed forms for forward-fill and cumulative sums -/

theorem int_max?_mem {l : List Int} {m : Int} (h : l.max? = some m) : m ∈ l :=
  List.max?_mem max_choice h

theorem ffill_lookup (f : Int → Option ℚ) :
    ∀ (ds : List Int), ds.Sorted (· < ·) →
      ∀ (last : Option ℚ) (d : Int), d ∈ ds →
        (ffillCol f ds last).lookup d =
          some ((lastObs f ds d).elim last (fun e => f e)) := by
  intro ds
  induction ds with
  | nil => intro _ last d hd; cases hd
  | cons a rest ih =>
    intro hsort last d hd
    have hrest : ∀ x ∈ rest, a < x := (List.sorted_cons.mp hsort).1
    have hsort' : rest.Sorted (· < ·) := (List.sorted_cons.mp hsort).2
    by_cases hda : d = a
    · subst hda
      have hfilter : rest.filter (fun x => decide (x ≤ d) && (f x).isSome) = [] := by
        refine List.filter_eq_nil_iff.mpr ?_
        intro x hx
        have hlt := hrest x hx
        simp only [Bool.and_eq_true, decide_eq_true_eq, not_and]
        intro hle
        omega
      cases hfa : f d with
      | some q =>
        have hlast : lastObs f (d :: rest) d = some d := by
          unfold lastObs
          rw [List.filter_cons, if_pos (by simp [hfa]), hfilter]
          rfl
        simp [ffillCol, hfa, List.lookup_cons, hlast]
      | none =>
        have hlast : lastObs f (d :: rest) d = none := by
          unfold lastObs
          rw [List.filter_cons, if_neg (by simp [hfa]), hfilter]
          rfl
        simp [ffillCol, hfa, List.lookup_cons, hlast]
    · have hdrest : d ∈ rest := by
        rcases List.mem_cons.mp hd with h | h
        · exact absurd h hda
        · exact h
      have had : a < d := hrest d hdrest
      have hbne : (d == a) = false := beq_false_of_ne hda
      have step : ∀ v : Option ℚ,
          (ffillCol f (a :: rest) last).lookup d = (ffillCol f rest
            (match f a with | some x => some x | none => last)).lookup d := by
        intro _
        simp [ffillCol, List.lookup_cons, hbne]
      rw [step last,
        ih hsort' (match f a with | some x => some x | none => last) d hdrest]
      have helim : (lastObs f (a :: rest) d).elim last (fun e => f e) =
          (lastObs f rest d).elim
            (match f a with | some x => some x | none => last) (fun e => f e) := by
        cases hfa : f a with
        | some q =>
          have hpa : (decide (a ≤ d) && (f a).isSome) = true := by
            simp [hfa, le_of_lt had]
          unfold lastObs
          rw [List.filter_cons, if_pos hpa]
          cases hmr : (rest.filter (fun x => decide (x ≤ d) && (f x).isSome)).max? with
          | some m =>
            have hmmem : m ∈ rest :=
              List.mem_of_mem_filter (int_max?_mem hmr)
            have ham : a < m := hrest m hmmem
            rw [List.max?_cons, hmr]
            simp only [Option.elim_some]
            rw [max_eq_right (le_of_lt ham)]
          | none =>
            rw [List.max?_eq_none_iff] at hmr
            rw [hmr, List.max?_cons]
            simp [hfa]
        | none =>
          have hpa : (decide (a ≤ d) && (f a).isSome) = false := by simp [hfa]
          unfold lastObs
          rw [List.filter_cons, if_neg (by simp [hpa])]
      rw [helim]

theorem cumsum_lookup (f : Int → ℚ) :
    ∀ (ds : List Int), ds.Sorted (· < ·) →
      ∀ (acc : ℚ) (d : Int), d ∈ ds →
        (cumsumSeries (ds.map (fun x => (x, f x))) acc).lookup d =
          some (acc + ((ds.filter (fun x => decide (x ≤ d))).map f).sum) := by
  intro ds
  induction ds with
  | nil => intro _ acc d hd; cases hd
  | cons a rest ih =>
    intro hsort acc d hd
    have hrest : ∀ x ∈ rest, a < x := (List.sorted_cons.mp hsort).1
    have hsort' : rest.Sorted (· < ·) := (List.sorted_cons.mp hsort).2
    by_cases hda : d = a
    · subst hda
      have hfilter : rest.filter (fun x => decide (x ≤ d)) = [] := by
        refine List.filter_eq_nil_iff.mpr ?_
        intro x hx
        have := hrest x hx
        simp only [decide_eq_true_eq]
        omega
      rw [List.map_cons, cumsumSeries]
      rw [List.filter_cons, if_pos (by simp), hfilter]
      simp [List.lookup_cons]
    · have hdrest : d ∈ rest := by
        rcases List.mem_cons.mp hd with h | h
        · exact absurd h hda
        · exact h
      have had : a < d := hrest d hdrest
      have hbne : (d == a) = false := beq_false_of_ne hda
      rw [List.map_cons, cumsumSeries]
      rw [List.lookup_cons]
      rw [hbne]
      rw [ih hsort' (acc + f a) d hdrest]
      rw [List.filter_cons, if_pos (by simp [le_of_lt had])]
      simp [add_assoc]

/-! ### Raw record dates lie on the canonical range -/

theorem holdings_dates_mem {inp : NavInput} {allD : List Int}
    (h : load_data inp = Except.ok allD) :
    ∀ r ∈ inp.holdings, r.date ∈ allD := by
  obtain ⟨lo, hi, heq, hlo, hhi⟩ := load_data_shape h
  intro r hr
  have hb := dates_mem_of_load (List.mem_cons_self _ _) (List.mem_cons_self _ _)
    hlo hhi r.date (List.mem_map.mpr ⟨r, hr, rfl⟩)
  rw [heq]
  exact mem_dateRange.mpr hb

theorem prices_dates_mem {inp : NavInput} {allD : List Int}
    (h : load_data inp = Except.ok allD) :
    ∀ r ∈ inp.prices, r.date ∈ allD := by
  obtain ⟨lo, hi, heq, hlo, hhi⟩ := load_data_shape h
  intro r hr
  have hb := dates_mem_of_load
    (List.mem_cons_of_mem _ (List.mem_cons_self _ _))
    (List.mem_cons_of_mem _ (List.mem_cons_self _ _))
    hlo hhi r.date (List.mem_map.mpr ⟨r, hr, rfl⟩)
  rw [heq]
  exact mem_dateRange.mpr hb

/-! ### The holdings matrix forward-fills per ticker (claim C2) -/

theorem holdingsPivot_isSome {hs : List HoldingRecord} {x : Int} {t : String} :
    (holdingsPivot hs x t).isSome = true ↔ ∃ r ∈ hs, r.date = x ∧ r.ticker = t := by
  unfold holdingsPivot
  by_cases h : hs.any (fun r => r.date == x && r.ticker == t) = true
  · rw [if_pos h]
    simp only [Option.isSome_some, true_iff]
    rcases List.any_eq_true.mp h with ⟨r, hr, hp⟩
    simp only [Bool.and_eq_true, beq_iff_eq] at hp
    exact ⟨r, hr, hp⟩
  · rw [if_neg h]
    simp only [Option.isSome_none, Bool.false_eq_true, false_iff]
    rintro ⟨r, hr, hdate, hticker⟩
    exact h (List.any_eq_true.mpr ⟨r, hr, by simp [hdate, hticker]⟩)

theorem holdings_lastObs {hs : List HoldingRecord} {allD : List Int} {t : String}
    {d : Int} (hmem : ∀ r ∈ hs, r.date ∈ allD) :
    lastObs (fun x => holdingsPivot hs x t) allD d =
      ((hs.filter (fun r => r.ticker == t && decide (r.date ≤ d))).map
        (fun r => r.date)).max? := by
  refine int_max?_congr ?_
  intro x
  constructor
  · intro hx
    rcases List.mem_filter.mp hx with ⟨_, hp⟩
    simp only [Bool.and_eq_true, decide_eq_true_eq] at hp
    rcases hp with ⟨hxd, hsome⟩
    rcases holdingsPivot_isSome.mp hsome with ⟨r, hr, hdate, hticker⟩
    refine List.mem_map.mpr ⟨r, List.mem_filter.mpr ⟨hr, ?_⟩, hdate⟩
    simp [hticker, hdate, hxd]
  · intro hx
    rcases List.mem_map.mp hx with ⟨r, hr, hdate⟩
    rcases List.mem_filter.mp hr with ⟨hrs, hp⟩
    simp only [Bool.and_eq_true, beq_iff_eq, decide_eq_true_eq] at hp
    refine List.mem_filter.mpr ⟨hdate ▸ hmem r hrs, ?_⟩
    simp only [Bool.and_eq_true, decide_eq_true_eq]
    refine ⟨hdate ▸ hp.2, holdingsPivot_isSome.mpr ⟨r, hrs, hdate, hp.1⟩⟩

/-- C2: in the holdings position matrix, every cell of the canonical range is
the sum aggregated on the most recent on-or-before date carrying a record of
that ticker, and `0` when the ticker has no record on or before the date. -/
theorem claim_C2 (inp : NavInput) (allD : List Int)
    (h : load_data inp = Except.ok allD) (t : String) (d : Int) (hd : d ∈ allD) :
    (((prepare_holdings inp.holdings allD).col t).lookup d).getD 0 =
      (((inp.holdings.filter (fun r => r.ticker == t && decide (r.date ≤ d))).map
          (fun r => r.date)).max?).elim 0 (fun e => holdingsSum inp.holdings e t) := by
  obtain ⟨lo, hi, heq, -, -⟩ := load_data_shape h
  have hsorted : allD.Sorted (· < ·) := heq ▸ sorted_dateRange lo hi
  have hmem := holdings_dates_mem h
  show ((((ffillCol (fun x => holdingsPivot inp.holdings x t) allD none)).map
      (fun p => (p.1, p.2.getD 0))).lookup d).getD 0 = _
  rw [lookup_map_snd (fun (o : Option ℚ) => o.getD 0) _ d]
  rw [ffill_lookup _ allD hsorted none d hd]
  rw [holdings_lastObs hmem]
  cases hm : ((inp.holdings.filter (fun r => r.ticker == t && decide (r.date ≤ d))).map
      (fun r => r.date)).max? with
  | none => simp
  | some e =>
    have he : holdingsPivot inp.holdings e t = some (holdingsSum inp.holdings e t) := by
      have hemem := int_max?_mem hm
      rcases List.mem_map.mp hemem with ⟨r, hr, hdate⟩
      rcases List.mem_filter.mp hr with ⟨hrs, hp⟩
      simp only [Bool.and_eq_true, beq_iff_eq, decide_eq_true_eq] at hp
      unfold holdingsPivot
      rw [if_pos (List.any_eq_true.mpr ⟨r, hrs, by simp [hdate, hp.1]⟩)]
    simp [he]

/-- Witness for C2 at the walkthrough scenario, day 1, ticker `AAA`. -/
theorem claim_C2_witness :
    (((prepare_holdings ex1.holdings [0, 1]).col "AAA").lookup 1).getD 0 =
      (((ex1.holdings.filter
          (fun r => r.ticker == "AAA" && decide (r.date ≤ 1))).map
            (fun r => r.date)).max?).elim 0
        (fun e => holdingsSum ex1.holdings e "AAA") :=
  claim_C2 ex1 [0, 1] (by decide) "AAA" 1 (by decide)

/-! ### The valuation engine zeroes unresolved products (claim C3) -/

theorem pricePivot_isSome {ps : List PriceRecord} {x : Int} {t : String} :
    (pricePivot ps x t).isSome = true ↔ ∃ r ∈ ps, r.date = x ∧ r.ticker = t := by
  unfold pricePivot
  have hsame : ((ps.find? (fun r => r.date == x && r.ticker == t)).map
      (fun r => r.close)).isSome =
      (ps.find? (fun r => r.date == x && r.ticker == t)).isSome := by
    cases ps.find? (fun r => r.date == x && r.ticker == t) <;> rfl
  rw [hsame, List.find?_isSome]
  constructor
  · rintro ⟨r, hr, hp⟩
    simp only [Bool.and_eq_true, beq_iff_eq] at hp
    exact ⟨r, hr, hp⟩
  · rintro ⟨r, hr, hdate, hticker⟩
    exact ⟨r, hr, by simp [hdate, hticker]⟩

theorem prices_lastObs {ps : List PriceRecord} {allD : List Int} {t : String}
    {d : Int} (hmem : ∀ r ∈ ps, r.date ∈ allD) :
    lastObs (fun x => pricePivot ps x t) allD d =
      ((ps.filter (fun r => r.ticker == t && decide (r.date ≤ d))).map
        (fun r => r.date)).max? := by
  refine int_max?_congr ?_
  intro x
  constructor
  · intro hx
    rcases List.mem_filter.mp hx with ⟨_, hp⟩
    simp only [Bool.and_eq_true, decide_eq_true_eq] at hp
    rcases hp with ⟨hxd, hsome⟩
    rcases pricePivot_isSome.mp hsome with ⟨r, hr, hdate, hticker⟩
    refine List.mem_map.mpr ⟨r, List.mem_filter.mpr ⟨hr, ?_⟩, hdate⟩
    simp [hticker, hdate, hxd]
  · intro hx
    rcases List.mem_map.mp hx with ⟨r, hr, hdate⟩
    rcases List.mem_filter.mp hr with ⟨hrs, hp⟩
    simp only [Bool.and_eq_true, beq_iff_eq, decide_eq_true_eq] at hp
    refine List.mem_filter.mpr ⟨hdate ▸ hmem r hrs, ?_⟩
    simp only [Bool.and_eq_true, decide_eq_true_eq]
    refine ⟨hdate ▸ hp.2, pricePivot_isSome.mpr ⟨r, hrs, hdate, hp.1⟩⟩

/-- C3: the daily market value is the sum, over the union of tickers of both
matrices, of position times forward-filled price, with a ticker whose price is
still unresolved on the date (no observation on or before it) contributing
exactly `0` instead of poisoning the total. -/
theorem claim_C3 (inp : NavInput) (allD : List Int)
    (h : load_data inp = Except.ok allD) (d : Int) (hd : d ∈ allD) :
    (calculate_assets allD (prepare_holdings inp.holdings allD)
        (price_frame inp.prices allD)).lookup d =
      some (((allTickers (prepare_holdings inp.holdings allD).cols
          (price_frame inp.prices allD).cols).map (fun t =>
        (((inp.prices.filter (fun r => r.ticker == t && decide (r.date ≤ d))).map
            (fun r => r.date)).max?).elim 0 (fun e =>
          ((((prepare_holdings inp.holdings allD).col t).lookup d).getD 0) *
            ((pricePivot inp.prices e t).getD 0)))).sum) := by
  obtain ⟨lo, hi, heq, -, -⟩ := load_data_shape h
  have hsorted : allD.Sorted (· < ·) := heq ▸ sorted_dateRange lo hi
  have hmem := prices_dates_mem h
  unfold calculate_assets
  rw [lookup_graph _ allD d hd]
  refine congrArg some (congrArg List.sum (List.map_congr_left ?_))
  intro t _
  have hcol : ((price_frame inp.prices allD).col t).lookup d =
      some ((lastObs (fun x => pricePivot inp.prices x t) allD d).elim none
        (fun e => pricePivot inp.prices e t)) := by
    show ((ffillCol (fun x => pricePivot inp.prices x t) allD none).lookup d) = _
    exact ffill_lookup _ allD hsorted none d hd
  rw [hcol]
  rw [prices_lastObs hmem]
  cases hm : ((inp.prices.filter (fun r => r.ticker == t && decide (r.date ≤ d))).map
      (fun r => r.date)).max? with
  | none => simp
  | some e =>
    have hsome : (pricePivot inp.prices e t).isSome = true := by
      have hemem := int_max?_mem hm
      rcases List.mem_map.mp hemem with ⟨r, hr, hdate⟩
      rcases List.mem_filter.mp hr with ⟨hrs, hp⟩
      simp only [Bool.and_eq_true, beq_iff_eq, decide_eq_true_eq] at hp
      exact pricePivot_isSome.mpr ⟨r, hrs, hdate, hp.1⟩
    rcases Option.isSome_iff_exists.mp hsome with ⟨c, hc⟩
    simp [hc]

/-- Witness for C3 at the walkthrough scenario, day 1. -/
theorem claim_C3_witness :
    (calculate_assets [0, 1] (prepare_holdings ex1.holdings [0, 1])
        (price_frame ex1.prices [0, 1])).lookup 1 =
      some (((allTickers (prepare_holdings ex1.holdings [0, 1]).cols
          (price_frame ex1.prices [0, 1]).cols).map (fun t =>
        (((ex1.prices.filter (fun r => r.ticker == t && decide (r.date ≤ 1))).map
            (fun r => r.date)).max?).elim 0 (fun e =>
          ((((prepare_holdings ex1.holdings [0, 1]).col t).lookup 1).getD 0) *
            ((pricePivot ex1.prices e t).getD 0)))).sum) :=
  claim_C3 ex1 [0, 1] (by decide) 1 (by decide)

/-! ### The cash balance is a zero-filled running sum (claims C4, C8) -/

theorem flow_eq_sum (cfs : List CashFlowRecord) (d : Int) :
    dailyFlow cfs d =
      ((cfs.filter (fun r => r.date == d)).map (fun r => r.amount)).sum := by
  unfold dailyFlow flowsOn
  by_cases h : cfs.any (fun r => r.date == d) = true
  · rw [if_pos h]; rfl
  · rw [if_neg h]
    have hnil : cfs.filter (fun r => r.date == d) = [] := by
      refine List.filter_eq_nil_iff.mpr ?_
      intro r hr hp
      exact h (List.any_eq_true.mpr ⟨r, hr, hp⟩)
    rw [hnil]
    rfl

theorem dateRange_self (lo : Int) : dateRange lo lo = [lo] := by
  unfold dateRange
  have h1 : (lo + 1 - lo).toNat = 1 := by omega
  rw [h1]
  simp [List.range_succ]

theorem cash_closed (cfs : List CashFlowRecord) {lo hi d : Int}
    (h1 : lo ≤ d) (h2 : d ≤ hi) :
    cashLookup cfs (dateRange lo hi) d =
      ((dateRange lo d).map (dailyFlow cfs)).sum := by
  have hd : d ∈ dateRange lo hi := mem_dateRange.mpr ⟨h1, h2⟩
  unfold cashLookup calculate_cash_and_liabilities
  rw [cumsum_lookup (dailyFlow cfs) _ (sorted_dateRange lo hi) 0 d hd]
  rw [dateRange_filter_le h2]
  simp

/-- C4: the daily cash balance satisfies
`cash[d] = cash[d-1] + (net flow dated d)` beyond the first canonical date,
starts at the net flow of the first date, and a date with no flow records
contributes a zero increment. -/
theorem claim_C4 (cfs : List CashFlowRecord) (lo hi : Int) :
    (∀ d, lo < d → d ≤ hi →
        cashLookup cfs (dateRange lo hi) d =
          cashLookup cfs (dateRange lo hi) (d - 1) +
            ((cfs.filter (fun r => r.date == d)).map (fun r => r.amount)).sum) ∧
    (lo ≤ hi →
        cashLookup cfs (dateRange lo hi) lo =
          ((cfs.filter (fun r => r.date == lo)).map (fun r => r.amount)).sum) := by
  constructor
  · intro d hlo hhi
    rw [cash_closed cfs (le_of_lt hlo) hhi,
      cash_closed cfs (by omega : lo ≤ d - 1) (by omega : d - 1 ≤ hi)]
    rw [dateRange_snoc (le_of_lt hlo)]
    rw [List.map_append, List.sum_append]
    simp [flow_eq_sum]
  · intro hlh
    rw [cash_closed cfs (le_refl lo) hlh, dateRange_self]
    simp [flow_eq_sum]

/-- Witness for C4: the recurrence at day 1 of the walkthrough scenario. -/
theorem claim_C4_witness :
    cashLookup ex1.cashflows (dateRange 0 1) 1 =
      cashLookup ex1.cashflows (dateRange 0 1) (1 - 1) +
        ((ex1.cashflows.filter (fun r => r.date == 1)).map
          (fun r => r.amount)).sum :=
  (claim_C4 ex1.cashflows 0 1).1 1 (by decide) (by decide)

theorem dailyFlow_nonneg {cfs : List CashFlowRecord}
    (hpos : ∀ r ∈ cfs, 0 ≤ r.amount) (d : Int) : 0 ≤ dailyFlow cfs d := by
  rw [flow_eq_sum]
  refine List.sum_nonneg ?_
  intro x hx
  rcases List.mem_map.mp hx with ⟨r, hr, rfl⟩
  exact hpos r (List.mem_of_mem_filter hr)

/-- C8 (amended): when every individual cash-flow amount is non-negative the
daily cash balance is non-decreasing along the canonical range.  (The converse
direction of the original claim is refuted by `claim_C8_cex`.) -/
theorem claim_C8 (cfs : List CashFlowRecord)
    (hpos : ∀ r ∈ cfs, 0 ≤ r.amount) (lo hi d1 d2 : Int)
    (h1 : lo ≤ d1) (h2 : d1 ≤ d2) (h3 : d2 ≤ hi) :
    cashLookup cfs (dateRange lo hi) d1 ≤ cashLookup cfs (dateRange lo hi) d2 := by
  rw [cash_closed cfs h1 (le_trans h2 h3), cash_closed cfs (le_trans h1 h2) h3]
  rw [dateRange_split (by omega : lo ≤ d1 + 1) h2]
  rw [List.map_append, List.sum_append]
  refine le_add_of_nonneg_right (List.sum_nonneg ?_)
  intro x hx
  rcases List.mem_map.mp hx with ⟨e, _, rfl⟩
  exact dailyFlow_nonneg hpos e

/-- Witness for C8 (amended) on the walkthrough scenario's cash flows. -/
theorem claim_C8_witness :
    cashLookup ex1.cashflows (dateRange 0 1) 0 ≤
      cashLookup ex1.cashflows (dateRange 0 1) 1 :=
  claim_C8 ex1.cashflows
    (by intro r hr
        have hr' : r = { date := 0, amount := 1000, type := "subscription" } := by
          simpa [ex1] using hr
        rw [hr']
        norm_num)
    0 1 0 1 (by decide) (by decide) (by decide)

/-! ### Liabilities are floored at zero (claim C6) -/

theorem liab_eval (cfs : List CashFlowRecord) (allD : List Int) (d : Int)
    (hd : d ∈ allD) :
    liabLookup cfs allD d =
      max (-(dailyFlow (cfs.filter (typeHas feeTag)) d)) 0 := by
  unfold liabLookup calculate_cash_and_liabilities
  rw [lookup_graph
    (fun d => max (-(dailyFlow (cfs.filter (typeHas feeTag)) d)) 0) allD d hd]
  rfl

theorem fee_flow_eq_sum (cfs : List CashFlowRecord) (d : Int) :
    dailyFlow (cfs.filter (typeHas feeTag)) d =
      ((cfs.filter (fun r => typeHas feeTag r && r.date == d)).map
        (fun r => r.amount)).sum := by
  rw [flow_eq_sum, List.filter_filter]
  refine congrArg _ (congrArg _ (List.filter_congr ?_))
  intro r _
  exact Bool.and_comm _ _

/-- C6: the liabilities cell of every canonical date is
`max 0 (-(net fee-labelled flow of the day))`; it is never negative, and a
day whose net fee-labelled flow is non-negative yields zero liability. -/
theorem claim_C6 (cfs : List CashFlowRecord) (allD : List Int) (d : Int)
    (hd : d ∈ allD) :
    0 ≤ liabLookup cfs allD d ∧
    liabLookup cfs allD d =
      max 0 (-(((cfs.filter (fun r => typeHas feeTag r && r.date == d)).map
        (fun r => r.amount)).sum)) ∧
    (0 ≤ ((cfs.filter (fun r => typeHas feeTag r && r.date == d)).map
        (fun r => r.amount)).sum →
      liabLookup cfs allD d = 0) := by
  have heval := liab_eval cfs allD d hd
  have heq : liabLookup cfs allD d =
      max 0 (-(((cfs.filter (fun r => typeHas feeTag r && r.date == d)).map
        (fun r => r.amount)).sum)) := by
    rw [heval, fee_flow_eq_sum, max_comm]
  refine ⟨?_, heq, ?_⟩
  · rw [heq]; exact le_max_left 0 _
  · intro hflow
    rw [heq]
    exact max_eq_left (by linarith)

/-- Witness for C6: a -50 management-fee flow yields liability 50 ≥ 0. -/
theorem claim_C6_witness : 0 ≤ liabLookup cfs6 [0] 0 :=
  (claim_C6 cfs6 [0] 0 (by decide)).1

/-! ### Units preparation (claim C5) -/

/-- C5 (amended): provided the units ledger's dates are pairwise distinct (so
the reindex itself does not raise), `prepare_units` fails with the
missing-units error whenever the ledger has no record on or before the first
canonical date, and succeeds with the fully forward-filled series whenever
every canonical date resolves after forward-fill.  (With duplicated ledger
dates the reindex raises first: `claim_C5_cex`.) -/
theorem claim_C5 (us : List UnitsRecord) (allD : List Int)
    (hnd : (us.map (fun r => r.date)).Nodup) :
    (∀ d0, allD.head? = some d0 → (∀ r ∈ us, d0 < r.date) →
        prepare_units us allD = Except.error NavError.missingUnits) ∧
    ((ffillCol (fun d => unitsPivot us d) allD none).all
        (fun p => p.2.isSome) = true →
      prepare_units us allD = Except.ok
        ((ffillCol (fun d => unitsPivot us d) allD none).map
          (fun p => (p.1, p.2.getD 0)))) := by
  constructor
  · intro d0 hhead hlate
    cases allD with
    | nil => exact absurd hhead (by simp)
    | cons a rest =>
      have ha : a = d0 := by simpa using hhead
      subst ha
      have hpivot : unitsPivot us a = none := by
        unfold unitsPivot
        rw [List.find?_eq_none.mpr ?_]
        · rfl
        · intro r hr
          have := hlate r hr
          simp only [beq_iff_eq]
          omega
      have hall : ((ffillCol (fun d => unitsPivot us d) (a :: rest) none).all
          (fun p => p.2.isSome)) = false := by
        simp [ffillCol, hpivot]
      unfold prepare_units
      rw [if_pos hnd]
      simp [hall]
  · intro hall
    unfold prepare_units
    rw [if_pos hnd, if_pos hall]

/-- Witness for C5 (amended): a ledger starting on day 5 cannot cover a range
that starts on day 0. -/
theorem claim_C5_witness :
    prepare_units usLate (dateRange 0 5) = Except.error NavError.missingUnits :=
  (claim_C5 usLate (dateRange 0 5) (by decide)).1 0 (by decide) (by decide)

/-- Counterexample to C5 as stated: with the same date recorded twice in the
units ledger every canonical date would resolve after forward-fill, yet the
computation aborts with the duplicate-label reindex error rather than
returning the forward-filled series. -/
theorem claim_C5_cex :
    (ffillCol (fun d => unitsPivot ex5.units d) [0] none).all
      (fun p => p.2.isSome) = true ∧
    runPipeline ex5 = Except.error NavError.duplicateUnitsDate := by
  constructor
  · decide
  · decide

/-! ### Empty inputs (claim C9) -/

theorem tsLt_none (x : Option Int) : tsLt x none = false := by
  cases x <;> rfl

theorem tsGt_none (x : Option Int) : tsGt x none = false := by
  cases x <;> rfl

/-- C9 (amended): an empty holdings frame — the first frame in the
`min`/`max` scan — poisons the endpoint computation and the run aborts while
deriving the canonical range.  (An empty prices frame does not abort the run:
`claim_C9_cex`.) -/
theorem claim_C9 (inp : NavInput) (h : inp.holdings = []) :
    runPipeline inp = Except.error NavError.emptyRange := by
  have hmin : seriesMin (inp.holdings.map (fun r => r.date)) = none := by
    rw [h]; rfl
  have hld : load_data inp = Except.error NavError.emptyRange := by
    unfold load_data
    simp only []
    rw [hmin, pyExtreme_none tsLt tsLt_none]
  unfold runPipeline
  rw [hld]

/-- Witness for C9 (amended): the concrete empty-holdings input aborts. -/
theorem claim_C9_witness : runPipeline exH = Except.error NavError.emptyRange :=
  claim_C9 exH rfl

/-! ### Duplicate price keys abort the pivot (claim C10) -/

/-- C10: a duplicated `(date, ticker)` pair in the prices frame makes
`prepare_prices` raise, and the whole pipeline can then never produce output;
duplicates are never resolved silently. -/
theorem claim_C10 (inp : NavInput) (allD : List Int)
    (hdup : ¬ (priceKeys inp.prices).Nodup) :
    prepare_prices inp.prices allD = Except.error NavError.duplicatePriceKey ∧
    ∀ rows, runPipeline inp ≠ Except.ok rows := by
  have hp : ∀ allD', prepare_prices inp.prices allD' =
      Except.error NavError.duplicatePriceKey := by
    intro allD'
    unfold prepare_prices
    rw [if_neg hdup]
  refine ⟨hp allD, ?_⟩
  intro rows hok
  unfold runPipeline at hok
  cases hld : load_data inp with
  | error e =>
    rw [hld] at hok
    exact Except.noConfusion hok
  | ok allD' =>
    rw [hld] at hok
    have hok' : compute_nav inp allD' = Except.ok rows := hok
    unfold compute_nav at hok'
    rw [hp allD'] at hok'
    exact Except.noConfusion hok'

/-- Witness for C10 at a concretely duplicated prices frame. -/
theorem claim_C10_witness :
    prepare_prices ex10.prices [0] = Except.error NavError.duplicatePriceKey :=
  (claim_C10 ex10 [0] (by decide)).1

/-! ### Unguarded division by units (claim C7) -/

/-- C7 (amended): once the price pivot and the units preparation have
succeeded, `compute_nav` always returns one row per canonical date, whatever
the sign of the units values; a zero-units date carries the non-finite
quotient in `nav_per_unit` while the remaining columns are still produced,
and a nonzero (including negative) units value carries the finite quotient.
(The original claim called the negative-units quotient non-finite:
`claim_C7_cex`.) -/
theorem claim_C7 (inp : NavInput) (allD : List Int) (us : List (Int × ℚ))
    (hpk : (priceKeys inp.prices).Nodup)
    (hu : prepare_units inp.units allD = Except.ok us) :
    ∃ rows, compute_nav inp allD = Except.ok rows ∧ rows.length = allD.length ∧
      ∀ r ∈ rows,
        (r.units_outstanding = 0 → r.nav_per_unit = NavValue.nonfin) ∧
        (r.units_outstanding ≠ 0 →
          r.nav_per_unit = NavValue.fin (r.net_assets / r.units_outstanding)) := by
  have hpp : prepare_prices inp.prices allD =
      Except.ok (price_frame inp.prices allD) := by
    unfold prepare_prices
    rw [if_pos hpk]
  unfold compute_nav
  rw [hpp, hu]
  refine ⟨_, rfl, by simp, ?_⟩
  intro r hr
  rcases List.mem_map.mp hr with ⟨d, hd, rfl⟩
  constructor
  · intro hz
    simp only [navDiv]
    rw [if_pos hz]
  · intro hnz
    simp only [navDiv]
    rw [if_neg hnz]

/-- Witness for C7 (amended) at the zero-units scenario. -/
theorem claim_C7_witness :
    ∃ rows, compute_nav exZ [0, 1] = Except.ok rows ∧
      rows.length = ([0, 1] : List Int).length ∧
      ∀ r ∈ rows,
        (r.units_outstanding = 0 → r.nav_per_unit = NavValue.nonfin) ∧
        (r.units_outstanding ≠ 0 →
          r.nav_per_unit = NavValue.fin (r.net_assets / r.units_outstanding)) :=
  claim_C7 exZ [0, 1] [(0, 0), (1, 0)] (by decide) (by decide)

/-! ### Concrete end-to-end evaluations -/

theorem typeHas_fee_subscription :
    typeHas feeTag { date := 0, amount := 1000, type := "subscription" } = false := by
  decide

theorem typeHas_div_subscription :
    typeHas divTag { date := 0, amount := 1000, type := "subscription" } = false := by
  decide

/-- C1: the spec's walkthrough scenario produces exactly the two expected
rows (day 0: assets 1000, cash 1000, net 2000, NAV 20; day 1: assets 1200
from the forward-filled position and price, cash 1000, net 2200, units
forward-filled at 100, NAV 22). -/
theorem claim_C1 : runPipeline ex1 = Except.ok
    [{ date := 0, assets_from_securities := 1000, cash_balance := 1000,
       cumulative_dividends := 0, liabilities := 0, net_assets := 2000,
       units_outstanding := 100, nav_per_unit := NavValue.fin 20 },
     { date := 1, assets_from_securities := 1200, cash_balance := 1000,
       cumulative_dividends := 0, liabilities := 0, net_assets := 2200,
       units_outstanding := 100, nav_per_unit := NavValue.fin 22 }] := by
  simp [runPipeline, ex1, load_data, seriesMin, seriesMax, pyExtreme, tsLt, tsGt,
    dateRange, List.min?, List.max?, List.range, List.range.loop,
    compute_nav, prepare_holdings, prepare_prices, price_frame, prepare_units,
    priceKeys, holdingsPivot, holdingsSum, pricePivot, unitsPivot, ffillCol,
    allTickers, calculate_assets, calculate_cash_and_liabilities, cumsumSeries,
    dailyFlow, flowsOn, typeHas_fee_subscription, typeHas_div_subscription,
    navDiv, List.lookup, List.find?, List.mergeSort, List.dedup, List.pwFilter]
  norm_num

/-- Counterexample to C7 as stated: with units fixed at -100 the pipeline
indeed does not raise, but the negative-units quotient carried into the rows
is the finite value -20 (resp. -22), not a non-finite one. -/
theorem claim_C7_cex : runPipeline ex7 = Except.ok
    [{ date := 0, assets_from_securities := 1000, cash_balance := 1000,
       cumulative_dividends := 0, liabilities := 0, net_assets := 2000,
       units_outstanding := -100, nav_per_unit := NavValue.fin (-20) },
     { date := 1, assets_from_securities := 1200, cash_balance := 1000,
       cumulative_dividends := 0, liabilities := 0, net_assets := 2200,
       units_outstanding := -100, nav_per_unit := NavValue.fin (-22) }] := by
  simp [runPipeline, ex7, load_data, seriesMin, seriesMax, pyExtreme, tsLt, tsGt,
    dateRange, List.min?, List.max?, List.range, List.range.loop,
    compute_nav, prepare_holdings, prepare_prices, price_frame, prepare_units,
    priceKeys, holdingsPivot, holdingsSum, pricePivot, unitsPivot, ffillCol,
    allTickers, calculate_assets, calculate_cash_and_liabilities, cumsumSeries,
    dailyFlow, flowsOn, typeHas_fee_subscription, typeHas_div_subscription,
    navDiv, List.lookup, List.find?, List.mergeSort, List.dedup, List.pwFilter]
  norm_num

/-- Counterexample to C9 as stated: with an empty prices frame (and the other
three frames populated) the run does not abort at all — the canonical range
is derived from the remaining frames and a NAV row is produced, with the
unresolved prices contributing zero market value. -/
theorem claim_C9_cex :
    ex9.prices = [] ∧ runPipeline ex9 = Except.ok
      [{ date := 0, assets_from_securities := 0, cash_balance := 1000,
         cumulative_dividends := 0, liabilities := 0, net_assets := 1000,
         units_outstanding := 100, nav_per_unit := NavValue.fin 10 }] := by
  refine ⟨rfl, ?_⟩
  simp [runPipeline, ex9, load_data, seriesMin, seriesMax, pyExtreme, tsLt, tsGt,
    dateRange, List.min?, List.max?, List.range, List.range.loop,
    compute_nav, prepare_holdings, prepare_prices, price_frame, prepare_units,
    priceKeys, holdingsPivot, holdingsSum, pricePivot, unitsPivot, ffillCol,
    allTickers, calculate_assets, calculate_cash_and_liabilities, cumsumSeries,
    dailyFlow, flowsOn, typeHas_fee_subscription, typeHas_div_subscription,
    navDiv, List.lookup, List.find?, List.mergeSort, List.dedup, List.pwFilter]
  norm_num

/-- Counterexample to C8 as stated: with a +100 and a -50 flow on day 0 and a
+10 flow on day 1 the cash balance (50 then 60) is non-decreasing although one
individual amount is negative, refuting the claimed equivalence. -/
theorem claim_C8_cex :
    cashLookup cfs8 (dateRange 0 1) 0 ≤ cashLookup cfs8 (dateRange 0 1) 1 ∧
    ({ date := 0, amount := -50, type := "withdrawal" } : CashFlowRecord) ∈ cfs8 ∧
    ({ date := 0, amount := -50, type := "withdrawal" } : CashFlowRecord).amount < 0 := by
  refine ⟨?_, List.mem_cons_of_mem _ (List.mem_cons_self _ _), by norm_num⟩
  have h0 : cashLookup cfs8 (dateRange 0 1) 0 = 50 := by
    simp [cashLookup, cfs8, calculate_cash_and_liabilities, cumsumSeries,
      dailyFlow, flowsOn, dateRange, List.range, List.range.loop, List.lookup]
    norm_num
  have h1 : cashLookup cfs8 (dateRange 0 1) 1 = 60 := by
    simp [cashLookup, cfs8, calculate_cash_and_liabilities, cumsumSeries,
      dailyFlow, flowsOn, dateRange, List.range, List.range.loop, List.lookup]
    norm_num
  rw [h0, h1]
  norm_num

end NavCalc
